import Mathlib

/-!
Verification development for the ggRMCP gateway core.

Shallow embedding of the Go sources:
  pkg/tools (MCP tool builder and JSON-schema projector),
  pkg/descriptors (offline FileDescriptorSet loader),
  pkg/grpc/discovery.go (service discoverer),
  pkg/grpc/reflection.go (reflection client and dynamic invoker),
  pkg/grpc/connection.go (connection manager).

Go strings are modelled as lists of characters; Go maps used as JSON
objects are modelled as association lists in insertion order; effects
(network, file system, protobuf codec) are modelled as explicit oracle
fields of environment records, with instrumentation flags recording
which effects an execution performed.
-/

/-- Go strings, modelled as lists of characters. -/
abbrev Chars := List Char

/-- Modelled from the spec: types.MethodInfo.GenerateToolName (package
pkg/types is not part of the provided sources).  Per the spec, the tool
identifier is produced by lowercasing the entire fully-qualified method
name and replacing every dot with an underscore. -/
def generateToolName (fullName : Chars) : Chars :=
  (fullName.map Char.toLower).map (fun c => if c = '.' then '_' else c)

/-- mcp.Tool as consumed by MCPToolBuilder.validateTool: only the name,
the description and the presence of the input schema are inspected. -/
structure Tool where
  name : Chars
  description : Chars
  inputSchemaPresent : Bool

/-- MCPToolBuilder.validateTool (pkg/tools): reject an empty name, an
empty description, a missing input schema, and a name that does not
contain an underscore separator. -/
def validateTool (t : Tool) : Except Chars Unit :=
  if t.name = [] then .error ("tool name cannot be empty".data)
  else if t.description = [] then .error ("tool description cannot be empty".data)
  else if t.inputSchemaPresent = false then .error ("tool input schema cannot be nil".data)
  else if t.name.contains '_' = false then
    .error ("tool name must contain underscore separator".data)
  else .ok ()

/-- Modelled from the spec: types.MethodInfo (package pkg/types is not
part of the provided sources).  The flattened catalog entry built by
both discovery paths; descriptor handles are represented by the
fully-qualified name of the message they describe. -/
structure MethodInfo where
  name : Chars
  fullName : Chars
  serviceName : Chars
  serviceDescription : Chars := []
  description : Chars := []
  inputType : Chars := []
  outputType : Chars := []
  inputDescriptor : Chars := []
  outputDescriptor : Chars := []
  isClientStreaming : Bool := false
  isServerStreaming : Bool := false
  toolName : Chars := []
  deriving DecidableEq, Repr

/-- descriptors.extractServiceNameForCompatibility: keep only the last
two dot-separated segments of a fully-qualified service name (or the
whole name when it has fewer than two segments). -/
def extractServiceNameForCompatibility (fullName : Chars) : Chars :=
  let parts := fullName.splitOn '.'
  match parts.reverse with
  | svc :: pkg :: _ => pkg ++ '.' :: svc
  | _ => fullName

/-- protoreflect.MethodDescriptor as read by Loader.ExtractMethodInfo.
The full name of a method is its service full name followed by a dot
and the method name (a protoreflect invariant), so only the simple name
is stored.  Comment fields carry the already-extracted source comments
(empty when source info is absent). -/
structure LoaderMethodDesc where
  name : Chars
  inputFullName : Chars
  outputFullName : Chars
  streamingClient : Bool
  streamingServer : Bool
  comment : Chars := []
  deriving DecidableEq, Repr

/-- protoreflect.ServiceDescriptor as read by Loader.ExtractMethodInfo. -/
structure LoaderServiceDesc where
  fullName : Chars
  comment : Chars := []
  methods : List LoaderMethodDesc
  deriving DecidableEq, Repr

/-- protoreflect.FileDescriptor as read by Loader.ExtractMethodInfo:
only the services are consulted. -/
structure LoaderFileDesc where
  services : List LoaderServiceDesc
  deriving DecidableEq, Repr

/-- descriptors.Loader.ExtractMethodInfo: walk every service of every
registered file and flatten all methods into MethodInfo records.  No
filtering of any kind is applied.  The Go function's error result is
always nil. -/
def extractMethodInfo (files : List LoaderFileDesc) : List MethodInfo :=
  files.flatMap (fun f => f.services.flatMap (fun svc =>
    let fullName := svc.fullName
    let serviceName := extractServiceNameForCompatibility fullName
    svc.methods.map (fun m =>
      let mFull := fullName ++ '.' :: m.name
      { name := m.name
        fullName := mFull
        serviceName := serviceName
        serviceDescription := svc.comment
        description := m.comment
        inputType := m.inputFullName
        outputType := m.outputFullName
        inputDescriptor := m.inputFullName
        outputDescriptor := m.outputFullName
        isClientStreaming := m.streamingClient
        isServerStreaming := m.streamingServer
        toolName := generateToolName mFull })))

/-- The reserved internal service prefixes of
reflectionClient.filterInternalServices. -/
def internalServicePrefixes : List Chars :=
  ["grpc.reflection.".data, "grpc.health.".data,
   "grpc.channelz.".data, "grpc.testing.".data]

/-- One service name is internal when it starts with one of the
reserved prefixes. -/
def isInternalService (s : Chars) : Bool :=
  internalServicePrefixes.any (fun p => p.isPrefixOf s)

/-- reflectionClient.filterInternalServices: drop the services whose
name starts with a reserved internal prefix. -/
def filterInternalServices (services : List Chars) : List Chars :=
  services.filter (fun s => !isInternalService s)

/-- descriptorpb.MethodDescriptorProto as read by the reflection path. -/
structure MethodDescProto where
  name : Chars
  inputType : Chars
  outputType : Chars
  clientStreaming : Bool
  serverStreaming : Bool
  deriving DecidableEq, Repr

/-- descriptorpb.ServiceDescriptorProto as read by the reflection path. -/
structure ServiceDescProto where
  name : Chars
  methods : List MethodDescProto
  deriving DecidableEq, Repr

/-- descriptorpb.FileDescriptorProto as read by the reflection path. -/
structure FileDescProto where
  fileName : Chars
  pkg : Chars
  services : List ServiceDescProto
  deriving DecidableEq, Repr

/-- strings.TrimPrefix(typeName, ".") as used by
resolveMessageDescriptor: drop one leading dot. -/
def trimLeadingDot : Chars → Chars
  | '.' :: rest => rest
  | s => s

/-- The package-qualified service name built by
extractMethodsFromFileDescriptor: package plus dot plus simple name,
or just the simple name when the file has no package. -/
def fullServiceName (pkg name : Chars) : Chars :=
  if pkg = [] then name else pkg ++ '.' :: name

/-- reflectionClient.createMethodInfoWithServiceContext.  The input and
output message descriptors are resolved through the resolve oracle
(resolveMessageDescriptor, which consults the file registry and the
global registry); a resolution failure makes method-info creation fail,
and the caller skips the method. -/
def createMethodInfoWithServiceContext (resolve : Chars → Option Chars)
    (serviceName : Chars) (m : MethodDescProto) : Option MethodInfo :=
  let fullName := serviceName ++ '.' :: m.name
  match resolve (trimLeadingDot m.inputType), resolve (trimLeadingDot m.outputType) with
  | some din, some dout =>
      some { name := m.name
             fullName := fullName
             serviceName := serviceName
             inputType := m.inputType
             outputType := m.outputType
             inputDescriptor := din
             outputDescriptor := dout
             isClientStreaming := m.clientStreaming
             isServerStreaming := m.serverStreaming
             toolName := generateToolName fullName }
  | _, _ => none

/-- reflectionClient.extractMethodsFromFileDescriptor: for every service
of the file whose package-qualified name is in the surviving target
set, create a MethodInfo per method, skipping methods whose descriptors
fail to resolve. -/
def extractMethodsFromFileDescriptor (resolve : Chars → Option Chars)
    (fd : FileDescProto) (targetServices : List Chars) : List MethodInfo :=
  fd.services.flatMap (fun svc =>
    let fsn := fullServiceName fd.pkg svc.name
    if targetServices.contains fsn then
      svc.methods.filterMap (createMethodInfoWithServiceContext resolve fsn)
    else [])

/-- Environment of the reflection client: the outcome of the
ListServices exchange, the FileContainingSymbol exchange per symbol,
and the message-descriptor resolution oracle. -/
structure ReflectionEnv where
  listServicesResult : Except Chars (List Chars)
  fileForSymbol : Chars → Except Chars FileDescProto
  resolve : Chars → Option Chars

/-- The file-descriptor grouping loop of
reflectionClient.DiscoverMethods: fetch the file containing each
surviving service symbol, skip failures, and keep each file only on
its first appearance (keyed by file name, falling back to the service
name when the file has no name). -/
def collectFileDescriptors (env : ReflectionEnv) :
    List Chars → List Chars → List FileDescProto
  | [], _ => []
  | s :: rest, seen =>
    match env.fileForSymbol s with
    | .error _ => collectFileDescriptors env rest seen
    | .ok fd =>
      let fileName := if fd.fileName = [] then s else fd.fileName
      if seen.contains fileName then collectFileDescriptors env rest seen
      else fd :: collectFileDescriptors env rest (fileName :: seen)

/-- reflectionClient.DiscoverMethods: list the services, filter the
internal ones, group the surviving services by containing file, and
extract every method of every surviving service of every unique file. -/
def discoverMethods (env : ReflectionEnv) : Except Chars (List MethodInfo) :=
  match env.listServicesResult with
  | .error e => .error e
  | .ok serviceNames =>
    let filteredServices := filterInternalServices serviceNames
    let fds := collectFileDescriptors env filteredServices []
    .ok (fds.flatMap (fun fd =>
      extractMethodsFromFileDescriptor env.resolve fd filteredServices))

/-- Outcome of the offline LoadFromFile plus BuildRegistry steps of
serviceDiscoverer.discoverFromFileDescriptor, as an oracle: on success
it yields the registered files that ExtractMethodInfo will walk. -/
structure DiscoveryEnv where
  connected : Bool
  descriptorEnabled : Bool
  descriptorPath : Chars
  loadResult : Except Chars (List LoaderFileDesc)
  reflection : ReflectionEnv

/-- serviceDiscoverer.discoverFromFileDescriptor: load and register the
descriptor set (oracle), then extract the method list. -/
def discoverFromFileDescriptor (env : DiscoveryEnv) : Except Chars (List MethodInfo) :=
  match env.loadResult with
  | .error e => .error e
  | .ok files => .ok (extractMethodInfo files)

/-- The catalog map from tool name to method, as a Go map modelled by
an association list: inserting an existing key overwrites in place,
a new key is appended. -/
def toolMapInsert (m : List (Chars × MethodInfo)) (k : Chars) (v : MethodInfo) :
    List (Chars × MethodInfo) :=
  if m.any (fun kv => kv.1 = k) then
    m.map (fun kv => if kv.1 = k then (k, v) else kv)
  else m ++ [(k, v)]

/-- The catalog-building loop of serviceDiscoverer.DiscoverServices:
tools[method.ToolName] = method for every discovered method. -/
def buildToolMap (methods : List MethodInfo) : List (Chars × MethodInfo) :=
  methods.foldl (fun m meth => toolMapInsert m meth.toolName meth) []

/-- Go map lookup on the modelled catalog. -/
def toolMapLookup (m : List (Chars × MethodInfo)) (k : Chars) : Option MethodInfo :=
  (m.find? (fun kv => kv.1 = k)).map (fun kv => kv.2)

/-- The errors serviceDiscoverer.DiscoverServices can return. -/
inductive DiscoveryError where
  | notConnected
  | reflectionFailed (e : Chars)
  deriving DecidableEq, Repr

/-- What one DiscoverServices round did: its result, the catalog
published when it returned (the previous catalog when it failed), and
whether the reflection client was queried during the round. -/
structure DiscoverOutcome where
  result : Except DiscoveryError Unit
  tools : List (Chars × MethodInfo)
  reflectionQueried : Bool
  deriving Repr

/-- The offline-path step of serviceDiscoverer.DiscoverServices: the
methods variable after the offline attempt.  The offline path runs
only when the descriptor set is enabled with a non-empty path; its
failure resets methods to nil.  Note that a successful offline load
that extracted no methods also leaves methods nil, since Go appends
into a nil slice. -/
def offlineMethodsOf (env : DiscoveryEnv) : List MethodInfo :=
  if env.descriptorEnabled && !env.descriptorPath.isEmpty then
    match discoverFromFileDescriptor env with
    | .ok ms => ms
    | .error _ => []
  else []

/-- serviceDiscoverer.DiscoverServices proper: fail before any query
when no reflection client exists; a nil offline method list falls
through to the reflection path; the catalog is stored only after a
method list was obtained. -/
def discoverServices (env : DiscoveryEnv) (tools₀ : List (Chars × MethodInfo)) :
    DiscoverOutcome :=
  if env.connected = false then ⟨.error .notConnected, tools₀, false⟩
  else if (offlineMethodsOf env).isEmpty then
    match discoverMethods env.reflection with
    | .ok ms => ⟨.ok (), buildToolMap ms, true⟩
    | .error e => ⟨.error (.reflectionFailed e), tools₀, true⟩
  else ⟨.ok (), buildToolMap (offlineMethodsOf env), false⟩

/-- The dynamic protobuf message of the invoker: either the fresh empty
message for a descriptor (dynamicpb.NewMessage) or the message obtained
by unmarshalling a JSON document into it. -/
inductive DynMsg where
  | empty (desc : Chars)
  | parsed (desc : Chars) (json : Chars)
  deriving DecidableEq, Repr

/-- The errors of the dynamic invocation path, distinguished by the Go
format strings that produce them. -/
inductive InvokeError where
  | parseFailure (e : Chars)
  | rpcFailure (e : Chars)
  | marshalFailure (e : Chars)
  | toolNotFound (name : Chars)
  | streamingUnsupported
  | notConnected
  | invokeFailed (e : InvokeError)
  deriving DecidableEq, Repr

/-- Environment of reflectionClient.InvokeMethod: whether the
discoverer holds a reflection client, and oracles for the protojson
codec and the transport call. -/
structure InvokeEnv where
  connected : Bool
  parse : Chars → Chars → Except Chars Unit
  rpc : Chars → DynMsg → Except Chars DynMsg
  marshal : DynMsg → Except Chars Chars

/-- What one invocation did: its result, the on-wire method path of the
backend call when one was issued, the request message sent with it, and
whether the input JSON was handed to the parser. -/
structure InvokeOutcome where
  result : Except InvokeError Chars
  rpcPath : Option Chars
  rpcSent : Option DynMsg
  parseAttempted : Bool
  deriving Repr

/-- The JSON text of an empty object, the second literal the invoker
treats as an empty input (written as characters because of the braces). -/
def emptyObjectLiteral : Chars := ['\x7b', '\x7d']

/-- Index of the last dot of a string (strings.LastIndex(s, ".") when
it is non-negative). -/
def lastDotIndex : Chars → Option Nat
  | [] => none
  | c :: rest =>
    match lastDotIndex rest with
    | some i => some (i + 1)
    | none => if c = '.' then some 0 else none

/-- The call step of reflectionClient.InvokeMethod (steps 3 to 7 of
the Go function), taking the dynamic input message built by the parse
step.  Metadata forwarding is omitted: it only decorates the outgoing
context.  The on-wire path is built by slicing the full name at its
last dot; a full name without a dot makes the Go slice expression
panic, modelled as none. -/
def invokeMethodCall (env : InvokeEnv) (method : MethodInfo) (inputMsg : DynMsg)
    (pa : Bool) : Option InvokeOutcome :=
  match lastDotIndex method.fullName with
  | none => none
  | some i =>
    match env.rpc ('/' :: method.fullName.take i ++ '/' :: method.name) inputMsg with
    | .error e =>
      some ⟨.error (.rpcFailure e),
        some ('/' :: method.fullName.take i ++ '/' :: method.name), some inputMsg, pa⟩
    | .ok outputMsg =>
      match env.marshal outputMsg with
      | .error e =>
        some ⟨.error (.marshalFailure e),
          some ('/' :: method.fullName.take i ++ '/' :: method.name), some inputMsg, pa⟩
      | .ok outputJSON =>
        some ⟨.ok outputJSON,
          some ('/' :: method.fullName.take i ++ '/' :: method.name), some inputMsg, pa⟩

/-- The parse step of reflectionClient.InvokeMethod, in front of the
call step above. -/
def invokeMethod (env : InvokeEnv) (method : MethodInfo) (inputJSON : Chars) :
    Option InvokeOutcome :=
  if inputJSON ≠ [] ∧ inputJSON ≠ emptyObjectLiteral then
    match env.parse method.inputDescriptor inputJSON with
    | .error e => some ⟨.error (.parseFailure e), none, none, true⟩
    | .ok () =>
      invokeMethodCall env method (.parsed method.inputDescriptor inputJSON) true
  else invokeMethodCall env method (.empty method.inputDescriptor) false

/-- serviceDiscoverer.InvokeMethodByTool: look the tool up in the
published catalog, reject streaming methods, require a reflection
client, then delegate to InvokeMethod, wrapping its error. -/
def invokeMethodByTool (env : InvokeEnv) (tools : List (Chars × MethodInfo))
    (toolName : Chars) (inputJSON : Chars) : Option InvokeOutcome :=
  match toolMapLookup tools toolName with
  | none => some ⟨.error (.toolNotFound toolName), none, none, false⟩
  | some method =>
    if method.isClientStreaming || method.isServerStreaming then
      some ⟨.error .streamingUnsupported, none, none, false⟩
    else if env.connected = false then
      some ⟨.error .notConnected, none, none, false⟩
    else
      match invokeMethod env method inputJSON with
      | none => none
      | some o =>
        match o.result with
        | .error e => some { o with result := .error (.invokeFailed e) }
        | .ok r => some { o with result := .ok r }

/-- The connectivity states of a gRPC channel. -/
inductive ConnState where
  | idle
  | connecting
  | ready
  | transientFailure
  | shutdown
  deriving DecidableEq, Repr

/-- The errors of connectionManager.healthCheckLocked, distinguished by
the Go messages that produce them. -/
inductive HealthError where
  | noConnection
  | unhealthyState (s : ConnState)
  | stateChangeTimeout
  | notReady
  deriving DecidableEq, Repr

/-- Environment of connectionManager.healthCheckLocked: the channel (if
any) with its current state, whether WaitForStateChange observed a
state change before the 5-second context expired, and the state read
back after the wait. -/
structure ConnHealthEnv where
  conn : Option ConnState
  waitChanged : Bool
  stateAfterWait : ConnState
  deriving DecidableEq, Repr

/-- connectionManager.healthCheckLocked: fail without a channel; fail
in TransientFailure or Shutdown; succeed immediately in Ready; from any
other state wait up to 5 seconds for one state change and succeed only
when the state read afterwards is Ready. -/
def healthCheckLocked (env : ConnHealthEnv) : Except HealthError Unit :=
  match env.conn with
  | none => .error .noConnection
  | some state =>
    if state = .transientFailure ∨ state = .shutdown then
      .error (.unhealthyState state)
    else if state ≠ .ready then
      if env.waitChanged = false then .error .stateChangeTimeout
      else if env.stateAfterWait ≠ .ready then .error .notReady
      else .ok ()
    else .ok ()

/-- JSON values, the shape of the map-based schemas the tool builder
produces.  Objects are association lists in a fixed key order (the Go
maps are unordered). -/
inductive JSON where
  | str (s : Chars)
  | num (n : Int)
  | bool (b : Bool)
  | arr (xs : List JSON)
  | obj (fields : List (Chars × JSON))
  deriving Repr

/-- protoreflect.Kind as inspected by
MCPToolBuilder.extractFieldTypeSchemaInternal.  GroupKind is the kind
that reaches the unsupported-kind default branch. -/
inductive FieldKind where
  | boolKind
  | int32Kind
  | sint32Kind
  | sfixed32Kind
  | int64Kind
  | sint64Kind
  | sfixed64Kind
  | uint32Kind
  | fixed32Kind
  | uint64Kind
  | fixed64Kind
  | floatKind
  | doubleKind
  | stringKind
  | bytesKind
  | enumKind
  | messageKind
  | groupKind
  deriving DecidableEq, Repr

/-- One enum value with its extracted comment (empty when absent). -/
structure EnumValueDesc where
  name : Chars
  comment : Chars := []
  deriving DecidableEq, Repr

/-- protoreflect.EnumDescriptor as read by the projector. -/
structure EnumDesc where
  values : List EnumValueDesc
  comment : Chars := []
  deriving DecidableEq, Repr

/-- The type information of a field (or of a map value field): its
kind, its enum descriptor for enum kinds, and the fully-qualified name
of its message type for message kinds (resolved through the registry). -/
structure TypeRef where
  kind : FieldKind
  enumRef : Option EnumDesc := none
  messageRef : Chars := []
  deriving DecidableEq, Repr

/-- protoreflect.FieldDescriptor as read by the projector.  The
comment field carries the already-extracted source comments. -/
structure FieldDesc where
  name : Chars
  typeRef : TypeRef
  isList : Bool := false
  isMap : Bool := false
  mapValue : Option TypeRef := none
  hasOptionalKeyword : Bool := false
  hasPresence : Bool := false
  comment : Chars := []
  deriving DecidableEq, Repr

/-- protoreflect.OneofDescriptor as read by the projector.  Its member
fields also appear in the containing message's field list, as in
protoreflect. -/
structure OneofDesc where
  name : Chars
  fields : List FieldDesc
  comment : Chars := []
  deriving DecidableEq, Repr

/-- protoreflect.MessageDescriptor as read by the projector. -/
structure MsgDesc where
  fullName : Chars
  fields : List FieldDesc := []
  oneofs : List OneofDesc := []
  comment : Chars := []
  deriving DecidableEq, Repr

/-- The message-type graph: the descriptors a field's messageRef can
resolve to.  In Go the descriptor objects reference each other
directly (possibly cyclically); the registry breaks that knot. -/
abbrev MsgRegistry := List MsgDesc

/-- Resolve a message full name to its descriptor (protoreflect's
field.Message()). -/
def lookupMsg (reg : MsgRegistry) (name : Chars) : Option MsgDesc :=
  reg.find? (fun m => m.fullName = name)

/-- The names of all registry messages. -/
def registryNames (reg : MsgRegistry) : List Chars :=
  reg.map (fun m => m.fullName)

/-- Number of registry messages not yet on the visited stack: the
primary termination measure of the projector. -/
def freshCount (reg : MsgRegistry) (visited : List Chars) : Nat :=
  ((registryNames reg).filter (fun n => !visited.contains n)).length

def lookupMsg_mem_names {reg : MsgRegistry} {name : Chars} {m : MsgDesc}
    (h : lookupMsg reg name = some m) : name ∈ registryNames reg := by
  have hmem : m ∈ reg := List.mem_of_find?_eq_some h
  have hp := List.find?_some h
  have hname : m.fullName = name := by simpa using hp
  exact List.mem_map.mpr ⟨m, hmem, hname⟩

def length_filter_mono {α : Type} (l : List α) (p q : α → Bool)
    (h : ∀ x, q x = true → p x = true) :
    (l.filter q).length ≤ (l.filter p).length := by
  induction l with
  | nil => simp
  | cons a l ih =>
    by_cases hq : q a = true
    · simp [List.filter_cons, hq, h a hq]
      omega
    · have hq' : q a = false := by simpa using hq
      simp only [List.filter_cons, hq']
      by_cases hp : p a = true
      · simp [hp]
        omega
      · have hp' : p a = false := by simpa using hp
        simp [hp']
        exact ih

def filter_shrinks_at_elem {α : Type} [BEq α] [LawfulBEq α]
    (l : List α) (visited : List α) (n : α)
    (hmem : n ∈ l) (hnv : visited.contains n = false) :
    (l.filter (fun x => !(n :: visited).contains x)).length <
    (l.filter (fun x => !visited.contains x)).length := by
  induction l with
  | nil => cases hmem
  | cons a l ih =>
    by_cases ha : a = n
    · subst ha
      have h1 : ((a :: visited).contains a) = true := by simp
      have h2 : (visited.contains a) = false := hnv
      simp only [List.filter_cons, h1, h2]
      simp only [Bool.not_true, Bool.not_false]
      simp only [if_neg (by simp : ¬((false : Bool) = true)), if_pos rfl]
      have hmono := length_filter_mono l
        (fun x => !visited.contains x) (fun x => !(a :: visited).contains x)
        (by
          intro x hx
          simp only [Bool.not_eq_true'] at hx ⊢
          simp only [List.contains_cons] at hx
          rcases Bool.or_eq_false_iff.mp hx with ⟨_, h⟩
          exact h)
      simpa using Nat.lt_succ_of_le hmono
    · have hmem' : n ∈ l := by
        rcases List.mem_cons.mp hmem with h | h
        · exact absurd h.symm ha
        · exact h
      have hcontains : ((n :: visited).contains a) = (visited.contains a) := by
        simp only [List.contains_cons]
        have : (a == n) = false := by
          simp [ha]
        simp [this]
      by_cases hva : visited.contains a = true
      · simp only [List.filter_cons, hcontains, hva, Bool.not_true,
          if_neg (by simp : ¬((false : Bool) = true))]
        exact ih hmem'
      · have hva' : visited.contains a = false := by simpa using hva
        simp only [List.filter_cons, hcontains, hva', Bool.not_false, if_pos rfl]
        simpa using Nat.succ_lt_succ (ih hmem')

def freshCount_cons_lt (reg : MsgRegistry) (visited : List Chars) (n : Chars)
    (hmem : n ∈ registryNames reg) (hnv : visited.contains n = false) :
    freshCount reg (n :: visited) < freshCount reg visited :=
  filter_shrinks_at_elem (registryNames reg) visited n hmem hnv

/-- The cycle token: a schema that references a message by name rather
than expanding it. -/
def refSchema (fullName : Chars) : JSON :=
  JSON.obj [("$ref".data, JSON.str ("#/definitions/".data ++ fullName))]

mutual

/-- MCPToolBuilder.extractMessageSchemaInternal.  A message already on
the visited stack projects to a $ref token without recursion;
otherwise the message is pushed on the stack, every field and every
oneof group is projected (field failures are logged and skipped), the
non-optional successfully-projected fields form the required list, and
the stack entry is popped on exit (implicit here: visited is passed by
value).  A name missing from the registry cannot arise from a Go
descriptor (field.Message() always yields a descriptor) and is mapped
to the same $ref token.  The Go error result is always nil. -/
def extractMessageSchemaInternal (reg : MsgRegistry) (msgName : Chars)
    (visited : List Chars) : JSON :=
  if hv : visited.contains msgName then
    refSchema msgName
  else
    match hr : lookupMsg reg msgName with
    | none => refSchema msgName
    | some msg =>
      let pr := extractFieldsLoop reg msg.fields (msgName :: visited)
      let oneofProps := extractOneofsLoop reg msg.oneofs (msgName :: visited)
      JSON.obj
        ([("type".data, JSON.str ("object".data))]
          ++ (if msg.comment = [] then []
              else [("description".data, JSON.str msg.comment)])
          ++ [("properties".data, JSON.obj (pr.1 ++ oneofProps))]
          ++ (if pr.2 = [] then []
              else [("required".data, JSON.arr (pr.2.map JSON.str))]))
termination_by (freshCount reg visited, 0, 0)
decreasing_by
all_goals
  have hnv : visited.contains msgName = false := by
    simpa using hv
  exact Prod.Lex.left _ _ (freshCount_cons_lt reg visited msgName (lookupMsg_mem_names hr) hnv)

/-- The plain-field loop of extractMessageSchemaInternal: build the
properties entries in field order and the required list of the
successfully-projected fields without optional-presence semantics. -/
def extractFieldsLoop (reg : MsgRegistry) (fields : List FieldDesc)
    (visited : List Chars) : List (Chars × JSON) × List Chars :=
  match fields with
  | [] => ([], [])
  | f :: rest =>
    let tail := extractFieldsLoop reg rest visited
    match extractFieldSchemaInternal reg f visited with
    | .error _ => tail
    | .ok fs =>
      ((f.name, fs) :: tail.1,
       if f.hasOptionalKeyword || f.hasPresence then tail.2
       else f.name :: tail.2)
termination_by (freshCount reg visited, 3, fields.length)
decreasing_by
all_goals
  first
  | exact Prod.Lex.right _ (Prod.Lex.left _ _ (by omega))
  | exact Prod.Lex.right _ (Prod.Lex.right _ (by simp only [List.length_cons]; omega))

/-- The oneof loop of extractMessageSchemaInternal: each oneof group
becomes one property whose schema lists one object alternative per
successfully-projected member field. -/
def extractOneofsLoop (reg : MsgRegistry) (oneofs : List OneofDesc)
    (visited : List Chars) : List (Chars × JSON) :=
  match oneofs with
  | [] => []
  | o :: rest =>
    let options := extractOneofFieldsLoop reg o.fields visited
    (o.name,
      JSON.obj
        ([("type".data, JSON.str ("object".data)),
          ("oneOf".data, JSON.arr options)]
         ++ (if o.comment = [] then []
             else [("description".data, JSON.str o.comment)])))
      :: extractOneofsLoop reg rest visited
termination_by (freshCount reg visited, 4, oneofs.length)
decreasing_by
all_goals
  first
  | exact Prod.Lex.right _ (Prod.Lex.left _ _ (by omega))
  | exact Prod.Lex.right _ (Prod.Lex.right _ (by simp only [List.length_cons]; omega))

/-- The per-oneof member loop: one alternative object schema per
member field, requiring exactly that field. -/
def extractOneofFieldsLoop (reg : MsgRegistry) (fields : List FieldDesc)
    (visited : List Chars) : List JSON :=
  match fields with
  | [] => []
  | f :: rest =>
    match extractFieldSchemaInternal reg f visited with
    | .error _ => extractOneofFieldsLoop reg rest visited
    | .ok fs =>
      JSON.obj
        [("type".data, JSON.str ("object".data)),
         ("properties".data, JSON.obj [(f.name, fs)]),
         ("required".data, JSON.arr [JSON.str f.name])]
        :: extractOneofFieldsLoop reg rest visited
termination_by (freshCount reg visited, 3, fields.length)
decreasing_by
all_goals
  first
  | exact Prod.Lex.right _ (Prod.Lex.left _ _ (by omega))
  | exact Prod.Lex.right _ (Prod.Lex.right _ (by simp only [List.length_cons]; omega))

/-- MCPToolBuilder.extractFieldSchemaInternal: attach the field
comment, then dispatch on cardinality — repeated fields become arrays,
map fields become objects with patternProperties over the map value
schema, and singular fields return the bare type schema (note that for
singular fields the Go code returns the type schema directly and the
comment-carrying schema is discarded, as in the source).  The
mapValue-missing branch cannot arise from a Go descriptor (MapValue()
is total on map fields). -/
def extractFieldSchemaInternal (reg : MsgRegistry) (field : FieldDesc)
    (visited : List Chars) : Except Chars JSON :=
  let descPart : List (Chars × JSON) :=
    if field.comment = [] then []
    else [("description".data, JSON.str field.comment)]
  if field.isList then
    match extractFieldTypeSchemaInternal reg field.typeRef visited with
    | .error e => .error e
    | .ok itemSchema =>
      .ok (JSON.obj (descPart ++
        [("type".data, JSON.str ("array".data)),
         ("items".data, itemSchema)]))
  else if field.isMap then
    match field.mapValue with
    | none => .error ("map field without value descriptor".data)
    | some valueType =>
      match extractFieldTypeSchemaInternal reg valueType visited with
      | .error e => .error e
      | .ok valueSchema =>
        .ok (JSON.obj (descPart ++
          [("type".data, JSON.str ("object".data)),
           ("patternProperties".data, JSON.obj [(".*".data, valueSchema)]),
           ("additionalProperties".data, JSON.bool false)]))
  else
    extractFieldTypeSchemaInternal reg field.typeRef visited
termination_by (freshCount reg visited, 2, 0)
decreasing_by
all_goals
  first
  | exact Prod.Lex.right _ (Prod.Lex.left _ _ (by omega))
  | exact Prod.Lex.right _ (Prod.Lex.right _ (by simp only [List.length_cons]; omega))

/-- MCPToolBuilder.extractFieldTypeSchemaInternal: the kind switch.
Scalars map to their JSON-schema types and formats, enums list their
value names (with per-value descriptions when commented), well-known
message types map to canonical shapes, other message types recurse
into extractMessageSchemaInternal, and any other kind (GroupKind) is
unsupported.  The enumRef-missing branch cannot arise from a Go
descriptor (field.Enum() is total on enum fields). -/
def extractFieldTypeSchemaInternal (reg : MsgRegistry) (t : TypeRef)
    (visited : List Chars) : Except Chars JSON :=
  match t.kind with
  | .boolKind =>
    .ok (JSON.obj [("type".data, JSON.str ("boolean".data))])
  | .int32Kind | .sint32Kind | .sfixed32Kind =>
    .ok (JSON.obj [("type".data, JSON.str ("integer".data)),
      ("format".data, JSON.str ("int32".data))])
  | .int64Kind | .sint64Kind | .sfixed64Kind =>
    .ok (JSON.obj [("type".data, JSON.str ("integer".data)),
      ("format".data, JSON.str ("int64".data))])
  | .uint32Kind | .fixed32Kind =>
    .ok (JSON.obj [("type".data, JSON.str ("integer".data)),
      ("format".data, JSON.str ("uint32".data)),
      ("minimum".data, JSON.num 0)])
  | .uint64Kind | .fixed64Kind =>
    .ok (JSON.obj [("type".data, JSON.str ("integer".data)),
      ("format".data, JSON.str ("uint64".data)),
      ("minimum".data, JSON.num 0)])
  | .floatKind =>
    .ok (JSON.obj [("type".data, JSON.str ("number".data)),
      ("format".data, JSON.str ("float".data))])
  | .doubleKind =>
    .ok (JSON.obj [("type".data, JSON.str ("number".data)),
      ("format".data, JSON.str ("double".data))])
  | .stringKind =>
    .ok (JSON.obj [("type".data, JSON.str ("string".data))])
  | .bytesKind =>
    .ok (JSON.obj [("type".data, JSON.str ("string".data)),
      ("format".data, JSON.str ("byte".data))])
  | .enumKind =>
    match t.enumRef with
    | none => .error ("enum field without enum descriptor".data)
    | some enumDesc =>
      let enumValues := enumDesc.values.map (fun v => JSON.str v.name)
      let enumDescriptions := enumDesc.values.filterMap (fun v =>
        if v.comment = [] then none else some (v.name, JSON.str v.comment))
      .ok (JSON.obj
        ([("type".data, JSON.str ("string".data)),
          ("enum".data, JSON.arr enumValues)]
         ++ (if enumDesc.comment = [] then []
             else [("description".data, JSON.str enumDesc.comment)])
         ++ (if enumDescriptions.isEmpty then []
             else [("enumDescriptions".data, JSON.obj enumDescriptions)])))
  | .messageKind =>
    if t.messageRef = "google.protobuf.Any".data then
      .ok (JSON.obj [("type".data, JSON.str ("object".data)),
        ("description".data,
         JSON.str ("Any contains an arbitrary serialized protocol buffer message".data))])
    else if t.messageRef = "google.protobuf.Timestamp".data then
      .ok (JSON.obj [("type".data, JSON.str ("string".data)),
        ("format".data, JSON.str ("date-time".data)),
        ("description".data, JSON.str ("RFC 3339 formatted timestamp".data))])
    else if t.messageRef = "google.protobuf.Duration".data then
      .ok (JSON.obj [("type".data, JSON.str ("string".data)),
        ("format".data, JSON.str ("duration".data)),
        ("description".data,
         JSON.str ("Duration in seconds with up to 9 fractional digits".data))])
    else if t.messageRef = "google.protobuf.Struct".data then
      .ok (JSON.obj [("type".data, JSON.str ("object".data)),
        ("description".data, JSON.str ("Arbitrary JSON-like structure".data))])
    else if t.messageRef = "google.protobuf.Value".data then
      .ok (JSON.obj [("description".data, JSON.str ("Any JSON value".data))])
    else if t.messageRef = "google.protobuf.ListValue".data then
      .ok (JSON.obj [("type".data, JSON.str ("array".data)),
        ("description".data, JSON.str ("Array of JSON values".data))])
    else if t.messageRef = "google.protobuf.StringValue".data
        ∨ t.messageRef = "google.protobuf.BytesValue".data then
      .ok (JSON.obj [("type".data, JSON.str ("string".data))])
    else if t.messageRef = "google.protobuf.BoolValue".data then
      .ok (JSON.obj [("type".data, JSON.str ("boolean".data))])
    else if t.messageRef = "google.protobuf.Int32Value".data
        ∨ t.messageRef = "google.protobuf.UInt32Value".data
        ∨ t.messageRef = "google.protobuf.Int64Value".data
        ∨ t.messageRef = "google.protobuf.UInt64Value".data then
      .ok (JSON.obj [("type".data, JSON.str ("integer".data))])
    else if t.messageRef = "google.protobuf.FloatValue".data
        ∨ t.messageRef = "google.protobuf.DoubleValue".data then
      .ok (JSON.obj [("type".data, JSON.str ("number".data))])
    else
      .ok (extractMessageSchemaInternal reg t.messageRef visited)
  | .groupKind => .error ("unsupported field kind".data)
termination_by (freshCount reg visited, 1, 0)
decreasing_by
all_goals
  first
  | exact Prod.Lex.right _ (Prod.Lex.left _ _ (by omega))
  | exact Prod.Lex.right _ (Prod.Lex.right _ (by simp only [List.length_cons]; omega))

end

/-- MCPToolBuilder.ExtractMessageSchema: project a message with an
empty visited stack. -/
def extractMessageSchema (reg : MsgRegistry) (msgName : Chars) : JSON :=
  extractMessageSchemaInternal reg msgName []

/-- Look a key up in a JSON object (Go map indexing on the schema). -/
def schemaLookup (j : JSON) (key : Chars) : Option JSON :=
  match j with
  | JSON.obj kvs => (kvs.find? (fun kv => kv.1 = key)).map (fun kv => kv.2)
  | _ => none

/-- The names listed in a schema's required array (empty when the
schema has none). -/
def requiredNames (j : JSON) : List Chars :=
  match schemaLookup j ("required".data) with
  | some (JSON.arr xs) =>
    xs.filterMap (fun x => match x with | JSON.str s => some s | _ => none)
  | _ => []

/-- A self-referential message: message Node has a string field v and
a singular message field next of type Node (singular message fields
track presence in proto3). -/
def nodeMsg : MsgDesc :=
  { fullName := "Node".data
    fields :=
      [ { name := "v".data, typeRef := { kind := .stringKind } },
        { name := "next".data
          typeRef := { kind := .messageKind, messageRef := "Node".data }
          hasPresence := true } ] }

/-- Registry containing only the cyclic Node message. -/
def nodeReg : MsgRegistry := [nodeMsg]

/-- A proto2 repeated group field: no optional keyword, no presence
(repeated fields never track presence), and a kind the projector does
not support. -/
def groupedField : FieldDesc :=
  { name := "g".data, typeRef := { kind := .groupKind }, isList := true }

/-- A message with a plain string field a and the repeated group field
g, neither of which has optional-presence semantics. -/
def groupFieldMsg : MsgDesc :=
  { fullName := "M".data
    fields := [ { name := "a".data, typeRef := { kind := .stringKind } },
                groupedField ] }

/-- Registry containing only the group-field message. -/
def groupFieldReg : MsgRegistry := [groupFieldMsg]

/-- A reflection environment whose every exchange fails (backend
without reflection). -/
def downReflectionEnv : ReflectionEnv :=
  { listServicesResult := .error ("reflection unavailable".data)
    fileForSymbol := fun _ => .error ("reflection unavailable".data)
    resolve := fun _ => none }

/-- A reflection environment exposing hello.HelloService with the
unary SayHello method. -/
def helloReflectionEnv : ReflectionEnv :=
  { listServicesResult := .ok [("hello.HelloService".data)]
    fileForSymbol := fun _ =>
      .ok { fileName := "hello.proto".data
            pkg := "hello".data
            services :=
              [ { name := "HelloService".data
                  methods :=
                    [ { name := "SayHello".data
                        inputType := ".hello.HelloRequest".data
                        outputType := ".hello.HelloReply".data
                        clientStreaming := false
                        serverStreaming := false } ] } ] }
    resolve := fun n => some n }

/-- An offline registry outcome holding a registered file whose only
service is the internal health service. -/
def healthLoaderFiles : List LoaderFileDesc :=
  [ { services :=
        [ { fullName := "grpc.health.v1.Health".data
            methods :=
              [ { name := "Check".data
                  inputFullName := "grpc.health.v1.HealthCheckRequest".data
                  outputFullName := "grpc.health.v1.HealthCheckResponse".data
                  streamingClient := false
                  streamingServer := false } ] } ] } ]

/-- An offline registry outcome holding a registered file exposing
hello.HelloService.SayHello. -/
def helloLoaderFiles : List LoaderFileDesc :=
  [ { services :=
        [ { fullName := "hello.HelloService".data
            methods :=
              [ { name := "SayHello".data
                  inputFullName := "hello.HelloRequest".data
                  outputFullName := "hello.HelloReply".data
                  streamingClient := false
                  streamingServer := false } ] } ] } ]

/-- Discovery round whose configured offline descriptor set loads
successfully but contains no services, while reflection would succeed:
exhibits the empty-list fallthrough. -/
def emptyOfflineEnv : DiscoveryEnv :=
  { connected := true
    descriptorEnabled := true
    descriptorPath := "descriptor.binpb".data
    loadResult := .ok []
    reflection := helloReflectionEnv }

/-- Discovery round whose configured offline descriptor set loads
successfully and yields the hello method. -/
def helloOfflineEnv : DiscoveryEnv :=
  { connected := true
    descriptorEnabled := true
    descriptorPath := "descriptor.binpb".data
    loadResult := .ok helloLoaderFiles
    reflection := downReflectionEnv }

/-- Discovery round whose configured offline descriptor set registers
the internal health service. -/
def healthOfflineEnv : DiscoveryEnv :=
  { connected := true
    descriptorEnabled := true
    descriptorPath := "descriptor.binpb".data
    loadResult := .ok healthLoaderFiles
    reflection := downReflectionEnv }

/-- A discovery round before Connect established a reflection client. -/
def disconnectedEnv : DiscoveryEnv :=
  { connected := false
    descriptorEnabled := false
    descriptorPath := []
    loadResult := .error ("not loaded".data)
    reflection := downReflectionEnv }

/-- An invocation environment whose codec and transport oracles all
succeed (the rpc oracle echoes the request message). -/
def okInvokeEnv : InvokeEnv :=
  { connected := true
    parse := fun _ _ => .ok ()
    rpc := fun _ m => .ok m
    marshal := fun _ => .ok ("response".data) }

/-- An invocation environment whose JSON parser rejects every input. -/
def badParseInvokeEnv : InvokeEnv :=
  { connected := true
    parse := fun _ _ => .error ("unknown field".data)
    rpc := fun _ m => .ok m
    marshal := fun _ => .ok ("response".data) }

/-- The catalog record of the unary hello.HelloService.SayHello. -/
def sayHelloMethod : MethodInfo :=
  { name := "SayHello".data
    fullName := "hello.HelloService.SayHello".data
    serviceName := "hello.HelloService".data
    inputDescriptor := "hello.HelloRequest".data
    outputDescriptor := "hello.HelloReply".data
    isClientStreaming := false
    isServerStreaming := false
    toolName := "hello_helloservice_sayhello".data }

/-- The catalog record of a server-streaming method. -/
def streamingMethod : MethodInfo :=
  { name := "Watch".data
    fullName := "hello.HelloService.Watch".data
    serviceName := "hello.HelloService".data
    inputDescriptor := "hello.HelloRequest".data
    outputDescriptor := "hello.HelloReply".data
    isClientStreaming := false
    isServerStreaming := true
    toolName := "hello_helloservice_watch".data }

/-- Whether a field projection succeeded (the fields the message loop
keeps). -/
def schemaResultOk : Except Chars JSON → Bool
  | .ok _ => true
  | .error _ => false

theorem generateToolName_underscore_mem (s : Chars) (h : '.' ∈ s) :
    '_' ∈ generateToolName s := by
  unfold generateToolName
  refine List.mem_map.mpr ⟨'.', List.mem_map.mpr ⟨'.', h, by decide⟩, by decide⟩

theorem extractMessageSchemaInternal_visited (reg : MsgRegistry) (msgName : Chars)
    (visited : List Chars) (hv : visited.contains msgName = true) :
    extractMessageSchemaInternal reg msgName visited = refSchema msgName := by
  rw [extractMessageSchemaInternal]
  rw [dif_pos hv]

theorem extractMessageSchemaInternal_expand (reg : MsgRegistry) (msgName : Chars)
    (visited : List Chars) (msg : MsgDesc)
    (hv : visited.contains msgName = false) (hr : lookupMsg reg msgName = some msg) :
    extractMessageSchemaInternal reg msgName visited =
      (let pr := extractFieldsLoop reg msg.fields (msgName :: visited)
       let oneofProps := extractOneofsLoop reg msg.oneofs (msgName :: visited)
       JSON.obj
        ([("type".data, JSON.str ("object".data))]
          ++ (if msg.comment = [] then []
              else [("description".data, JSON.str msg.comment)])
          ++ [("properties".data, JSON.obj (pr.1 ++ oneofProps))]
          ++ (if pr.2 = [] then []
              else [("required".data, JSON.arr (pr.2.map JSON.str))]))) := by
  rw [extractMessageSchemaInternal]
  rw [dif_neg (by intro hc; rw [hv] at hc; simp at hc)]
  split
  · next h => rw [hr] at h; cases h
  · next msg' h =>
      rw [hr] at h
      injection h with h'
      subst h'
      rfl

theorem extractFieldsLoop_snd (reg : MsgRegistry) (fields : List FieldDesc)
    (visited : List Chars) :
    (extractFieldsLoop reg fields visited).2 =
      (fields.filter (fun f =>
        schemaResultOk (extractFieldSchemaInternal reg f visited)
        && !(f.hasOptionalKeyword || f.hasPresence))).map (fun f => f.name) := by
  induction fields with
  | nil => rw [extractFieldsLoop]; simp
  | cons f rest ih =>
    rw [extractFieldsLoop]
    cases hf : extractFieldSchemaInternal reg f visited with
    | error e => simp [List.filter_cons, hf, schemaResultOk, ih]
    | ok fs =>
      by_cases hopt : (f.hasOptionalKeyword || f.hasPresence) = true
      · have hcond : ¬(f.hasOptionalKeyword = false ∧ f.hasPresence = false) := by
          intro hc
          rw [hc.1, hc.2] at hopt
          simp at hopt
        simp [List.filter_cons, hf, schemaResultOk, hopt, ih, hcond]
      · have hopt' : (f.hasOptionalKeyword || f.hasPresence) = false := by
          simpa using hopt
        obtain ⟨h1, h2⟩ := Bool.or_eq_false_iff.mp hopt'
        simp [List.filter_cons, hf, schemaResultOk, h1, h2, ih]

theorem lastDotIndex_none (s : Chars) (h : lastDotIndex s = none) :
    s.contains '.' = false := by
  induction s with
  | nil => rfl
  | cons c rest ih =>
    rw [lastDotIndex] at h
    cases hrest : lastDotIndex rest with
    | some j => rw [hrest] at h; cases h
    | none =>
      rw [hrest] at h
      by_cases hc : c = '.'
      · rw [if_pos hc] at h; cases h
      · rw [if_neg hc] at h
        rw [List.contains_cons, Bool.or_eq_false_iff]
        refine ⟨beq_eq_false_iff_ne.mpr (fun hcc => hc hcc.symm), ih hrest⟩

theorem lastDotIndex_spec (s : Chars) (i : Nat) (h : lastDotIndex s = some i) :
    s = s.take i ++ '.' :: s.drop (i + 1) ∧ (s.drop (i + 1)).contains '.' = false := by
  induction s generalizing i with
  | nil => cases h
  | cons c rest ih =>
    rw [lastDotIndex] at h
    cases hrest : lastDotIndex rest with
    | some j =>
      rw [hrest] at h
      injection h with h'
      subst h'
      obtain ⟨ha, hb⟩ := ih j hrest
      constructor
      · show c :: rest = (c :: rest).take (j + 1) ++ '.' :: (c :: rest).drop (j + 1 + 1)
        rw [List.take_succ_cons, List.drop_succ_cons]
        rw [List.cons_append]
        exact congrArg (c :: ·) ha
      · rw [List.drop_succ_cons]
        exact hb
    | none =>
      rw [hrest] at h
      by_cases hc : c = '.'
      · rw [if_pos hc] at h
        injection h with h'
        subst h'
        refine ⟨?_, ?_⟩
        · simp [hc]
        · simpa using lastDotIndex_none rest hrest
      · rw [if_neg hc] at h
        cases h

theorem createMethodInfo_spec {resolve : Chars → Option Chars} {sn : Chars}
    {md : MethodDescProto} {m : MethodInfo}
    (h : createMethodInfoWithServiceContext resolve sn md = some m) :
    m.serviceName = sn ∧ m.fullName = sn ++ '.' :: md.name ∧
    m.toolName = generateToolName (sn ++ '.' :: md.name) ∧
    m.isClientStreaming = md.clientStreaming ∧
    m.isServerStreaming = md.serverStreaming := by
  unfold createMethodInfoWithServiceContext at h
  split at h
  · next din dout hdin hdout =>
      injection h with h'
      subst h'
      exact ⟨rfl, rfl, rfl, rfl, rfl⟩
  · next => cases h

theorem extractMethodsFD_spec {resolve : Chars → Option Chars} {fd : FileDescProto}
    {targets : List Chars} {m : MethodInfo}
    (h : m ∈ extractMethodsFromFileDescriptor resolve fd targets) :
    targets.contains m.serviceName = true ∧
    m.toolName = generateToolName m.fullName ∧
    '.' ∈ m.fullName := by
  unfold extractMethodsFromFileDescriptor at h
  obtain ⟨svc, hsvc, hm⟩ := List.mem_flatMap.mp h
  by_cases hc : targets.contains (fullServiceName fd.pkg svc.name) = true
  · rw [if_pos hc] at hm
    obtain ⟨md, hmd, hcr⟩ := List.mem_filterMap.mp hm
    obtain ⟨hsn, hfn, htn, _, _⟩ := createMethodInfo_spec hcr
    refine ⟨by rw [hsn]; exact hc, by rw [htn, hfn], ?_⟩
    rw [hfn]
    exact List.mem_append_right _ (List.mem_cons_self _ _)
  · rw [if_neg hc] at hm
    cases hm

theorem discoverMethods_spec {env : ReflectionEnv} {ms : List MethodInfo} {m : MethodInfo}
    (hms : discoverMethods env = .ok ms) (hm : m ∈ ms) :
    isInternalService m.serviceName = false ∧
    m.toolName = generateToolName m.fullName ∧ '.' ∈ m.fullName := by
  unfold discoverMethods at hms
  cases hls : env.listServicesResult with
  | error e => rw [hls] at hms; cases hms
  | ok names =>
    rw [hls] at hms
    injection hms with h'
    subst h'
    obtain ⟨fd, hfd, hmem⟩ := List.mem_flatMap.mp hm
    have h1 := extractMethodsFD_spec hmem
    refine ⟨?_, h1.2.1, h1.2.2⟩
    have hmemf : m.serviceName ∈ filterInternalServices names := by
      have hcontains := h1.1
      simpa using hcontains
    have := List.mem_filter.mp hmemf
    simpa using this.2

theorem extractMethodInfo_spec {files : List LoaderFileDesc} {m : MethodInfo}
    (h : m ∈ extractMethodInfo files) :
    m.toolName = generateToolName m.fullName ∧ '.' ∈ m.fullName := by
  unfold extractMethodInfo at h
  obtain ⟨f, hf, h2⟩ := List.mem_flatMap.mp h
  obtain ⟨svc, hsvc, h3⟩ := List.mem_flatMap.mp h2
  obtain ⟨md, hmd, h4⟩ := List.mem_map.mp h3
  subst h4
  exact ⟨rfl, List.mem_append_right _ (List.mem_cons_self _ _)⟩

theorem toolMapInsert_values {acc : List (Chars × MethodInfo)} {k : Chars}
    {v : MethodInfo} {kv : Chars × MethodInfo}
    (h : kv ∈ toolMapInsert acc k v) : kv.2 = v ∨ kv ∈ acc := by
  unfold toolMapInsert at h
  by_cases hany : acc.any (fun kv => kv.1 = k) = true
  · rw [if_pos hany] at h
    obtain ⟨kv0, hkv0, heq⟩ := List.mem_map.mp h
    by_cases hk : kv0.1 = k
    · rw [if_pos hk] at heq
      left
      rw [← heq]
    · rw [if_neg hk] at heq
      right
      rw [← heq]
      exact hkv0
  · rw [if_neg hany] at h
    rcases List.mem_append.mp h with h1 | h1
    · right; exact h1
    · left
      have : kv = (k, v) := by simpa using h1
      rw [this]

theorem buildToolMap_values_aux (ms : List MethodInfo) (acc : List (Chars × MethodInfo))
    (S : MethodInfo → Prop)
    (hacc : ∀ kv ∈ acc, S kv.2) (hms : ∀ x ∈ ms, S x) :
    ∀ kv ∈ ms.foldl (fun m meth => toolMapInsert m meth.toolName meth) acc, S kv.2 := by
  induction ms generalizing acc with
  | nil =>
    intro kv hkv
    exact hacc kv hkv
  | cons x rest ih =>
    intro kv hkv
    refine ih (toolMapInsert acc x.toolName x) ?_
      (fun y hy => hms y (List.mem_cons_of_mem _ hy)) kv hkv
    intro kv0 hkv0
    rcases toolMapInsert_values hkv0 with heq | hmem
    · rw [heq]
      exact hms x (List.mem_cons_self _ _)
    · exact hacc kv0 hmem

theorem buildToolMap_lookup_mem {ms : List MethodInfo} {k : Chars} {m : MethodInfo}
    (h : toolMapLookup (buildToolMap ms) k = some m) : m ∈ ms := by
  unfold toolMapLookup at h
  cases hf : (buildToolMap ms).find? (fun kv => kv.1 = k) with
  | none => rw [hf] at h; cases h
  | some kv =>
    rw [hf] at h
    injection h with h'
    have hkv : kv ∈ buildToolMap ms := List.mem_of_find?_eq_some hf
    have hval := buildToolMap_values_aux ms [] (fun x => x ∈ ms)
      (by intro kv0 hkv0; cases hkv0) (fun x hx => hx) kv (by
        unfold buildToolMap at hkv
        exact hkv)
    rw [← h']
    exact hval

theorem offlineMethodsOf_sources (env : DiscoveryEnv) :
    offlineMethodsOf env = [] ∨
    ∃ files, env.loadResult = Except.ok files ∧
      offlineMethodsOf env = extractMethodInfo files := by
  unfold offlineMethodsOf
  by_cases hcfg : (env.descriptorEnabled && !env.descriptorPath.isEmpty) = true
  · rw [if_pos hcfg]
    cases hd : discoverFromFileDescriptor env with
    | error e => left; rfl
    | ok ms =>
      right
      unfold discoverFromFileDescriptor at hd
      cases hl : env.loadResult with
      | error e => rw [hl] at hd; cases hd
      | ok files =>
        rw [hl] at hd
        injection hd with h'
        exact ⟨files, rfl, h'.symm⟩
  · rw [if_neg hcfg]
    left
    rfl

theorem discoverServices_shape (env : DiscoveryEnv) (tools₀ : List (Chars × MethodInfo)) :
    ((∃ e, (discoverServices env tools₀).result = Except.error e) ∧
      (discoverServices env tools₀).tools = tools₀)
    ∨ (∃ ms, (discoverServices env tools₀).result = Except.ok () ∧
        (discoverServices env tools₀).tools = buildToolMap ms ∧
        ((∃ files, env.loadResult = Except.ok files ∧ ms = extractMethodInfo files) ∨
          discoverMethods env.reflection = Except.ok ms)) := by
  unfold discoverServices
  by_cases hconn : env.connected = false
  · rw [if_pos hconn]
    left
    exact ⟨⟨.notConnected, rfl⟩, rfl⟩
  · rw [if_neg hconn]
    by_cases hoe : (offlineMethodsOf env).isEmpty = true
    · rw [if_pos hoe]
      cases hdm : discoverMethods env.reflection with
      | ok ms =>
        right
        exact ⟨ms, rfl, rfl, Or.inr rfl⟩
      | error e =>
        left
        exact ⟨⟨.reflectionFailed e, rfl⟩, rfl⟩
    · rw [if_neg hoe]
      right
      refine ⟨offlineMethodsOf env, rfl, rfl, Or.inl ?_⟩
      rcases offlineMethodsOf_sources env with hnil | ⟨files, hl, hex⟩
      · rw [hnil] at hoe
        simp at hoe
      · exact ⟨files, hl, hex⟩

/-- C1: for every method record exposed in the published catalog, the
derived tool identifier equals the fully-qualified method name
lowercased with every dot replaced by an underscore, and contains at
least one underscore; and tool validation rejects any tool whose name
lacks an underscore. -/
theorem c1_tool_identifier :
    (∀ (env : DiscoveryEnv) (tools₀ : List (Chars × MethodInfo)) (k : Chars)
        (m : MethodInfo),
      (discoverServices env tools₀).result = Except.ok () →
      toolMapLookup (discoverServices env tools₀).tools k = some m →
      m.toolName = generateToolName m.fullName ∧ '_' ∈ m.toolName)
    ∧ (∀ t : Tool, t.name.contains '_' = false → validateTool t ≠ Except.ok ()) := by
  constructor
  · intro env tools₀ k m hok hlk
    rcases discoverServices_shape env tools₀ with ⟨⟨e, he⟩, _⟩ | ⟨ms, hres, htools, hsrc⟩
    · rw [he] at hok; cases hok
    · rw [htools] at hlk
      have hm : m ∈ ms := buildToolMap_lookup_mem hlk
      have hprop : m.toolName = generateToolName m.fullName ∧ '.' ∈ m.fullName := by
        rcases hsrc with ⟨files, _, hex⟩ | hdm
        · exact extractMethodInfo_spec (hex ▸ hm)
        · exact ⟨(discoverMethods_spec hdm hm).2.1, (discoverMethods_spec hdm hm).2.2⟩
      refine ⟨hprop.1, ?_⟩
      rw [hprop.1]
      exact generateToolName_underscore_mem _ hprop.2
  · intro t hnou hok
    unfold validateTool at hok
    by_cases h1 : t.name = []
    · rw [if_pos h1] at hok; cases hok
    · rw [if_neg h1] at hok
      by_cases h2 : t.description = []
      · rw [if_pos h2] at hok; cases hok
      · rw [if_neg h2] at hok
        by_cases h3 : t.inputSchemaPresent = false
        · rw [if_pos h3] at hok; cases hok
        · rw [if_neg h3] at hok
          rw [if_pos hnou] at hok
          cases hok

theorem c1_tool_identifier_witness :
    (({ name := "SayHello".data
        fullName := "hello.HelloService.SayHello".data
        serviceName := "hello.HelloService".data
        serviceDescription := []
        description := []
        inputType := "hello.HelloRequest".data
        outputType := "hello.HelloReply".data
        inputDescriptor := "hello.HelloRequest".data
        outputDescriptor := "hello.HelloReply".data
        isClientStreaming := false
        isServerStreaming := false
        toolName := "hello_helloservice_sayhello".data } : MethodInfo).toolName =
      generateToolName ("hello.HelloService.SayHello".data)
      ∧ '_' ∈ ("hello_helloservice_sayhello".data))
    ∧ validateTool ⟨"noseparator".data, "d".data, true⟩ ≠ Except.ok () :=
  ⟨c1_tool_identifier.1 helloOfflineEnv [] ("hello_helloservice_sayhello".data)
      _ rfl rfl,
   c1_tool_identifier.2 _ rfl⟩

/-- C10: whenever DiscoverServices fails, the previously published
tool catalog is left unchanged, so readers continue to see the prior
catalog. -/
theorem c10_catalog_unchanged_on_error :
    ∀ (env : DiscoveryEnv) (tools₀ : List (Chars × MethodInfo)) (e : DiscoveryError),
      (discoverServices env tools₀).result = Except.error e →
      (discoverServices env tools₀).tools = tools₀ := by
  intro env tools₀ e herr
  rcases discoverServices_shape env tools₀ with ⟨_, ht⟩ | ⟨ms, hres, _, _⟩
  · exact ht
  · rw [hres] at herr; cases herr

theorem c10_catalog_unchanged_on_error_witness :
    (discoverServices disconnectedEnv
      [("hello_helloservice_sayhello".data, sayHelloMethod)]).tools =
      [("hello_helloservice_sayhello".data, sayHelloMethod)] :=
  c10_catalog_unchanged_on_error disconnectedEnv
    [("hello_helloservice_sayhello".data, sayHelloMethod)] .notConnected rfl

/-- C2 (amended): in every discovery round in which the discoverer is
connected, the offline descriptor set is configured, loads
successfully and yields at least one method, that method list is used
as-is and the reflection client is not queried during the round. -/
theorem c2_offline_authoritative :
    ∀ (env : DiscoveryEnv) (tools₀ : List (Chars × MethodInfo)) (ms : List MethodInfo),
      env.connected = true →
      env.descriptorEnabled = true →
      env.descriptorPath ≠ [] →
      discoverFromFileDescriptor env = Except.ok ms →
      ms ≠ [] →
      discoverServices env tools₀ = ⟨Except.ok (), buildToolMap ms, false⟩ := by
  intro env tools₀ ms hconn hen hpath hok hne
  have hcfg : (env.descriptorEnabled && !env.descriptorPath.isEmpty) = true := by
    rw [hen]
    cases hp : env.descriptorPath with
    | nil => exact absurd hp hpath
    | cons a l => rfl
  have hoff : offlineMethodsOf env = ms := by
    unfold offlineMethodsOf
    rw [if_pos hcfg, hok]
  unfold discoverServices
  rw [if_neg (by rw [hconn]; simp), hoff]
  rw [if_neg (by
    cases hms : ms with
    | nil => exact absurd hms hne
    | cons a l => simp)]

theorem c2_offline_authoritative_witness :
    discoverServices helloOfflineEnv [] =
      ⟨Except.ok (), buildToolMap (extractMethodInfo helloLoaderFiles), false⟩ :=
  c2_offline_authoritative helloOfflineEnv [] (extractMethodInfo helloLoaderFiles)
    rfl rfl (by decide) rfl (by decide)

/-- C2 counterexample: a configured offline descriptor set that loads
successfully but yields no methods does not suppress the reflection
query — the round still queries the reflection client. -/
theorem c2_counterexample :
    emptyOfflineEnv.descriptorEnabled = true ∧
    emptyOfflineEnv.descriptorPath ≠ [] ∧
    discoverFromFileDescriptor emptyOfflineEnv = Except.ok [] ∧
    (discoverServices emptyOfflineEnv []).reflectionQueried = true :=
  ⟨rfl, by decide, rfl, rfl⟩

/-- C3 (amended): on the reflection discovery path, every published
method belongs to a service whose package-qualified name does not
begin with any reserved internal prefix.  The offline descriptor-set
path applies no such filter (see the counterexample). -/
theorem c3_reflection_filter :
    ∀ (env : ReflectionEnv) (ms : List MethodInfo) (m : MethodInfo),
      discoverMethods env = Except.ok ms → m ∈ ms →
      isInternalService m.serviceName = false :=
  fun _ _ _ hms hm => (discoverMethods_spec hms hm).1

theorem c3_reflection_filter_witness :
    isInternalService
      (({ name := "SayHello".data
          fullName := "hello.HelloService.SayHello".data
          serviceName := "hello.HelloService".data
          inputType := ".hello.HelloRequest".data
          outputType := ".hello.HelloReply".data
          inputDescriptor := "hello.HelloRequest".data
          outputDescriptor := "hello.HelloReply".data
          isClientStreaming := false
          isServerStreaming := false
          toolName := "hello_helloservice_sayhello".data } : MethodInfo).serviceName)
      = false :=
  c3_reflection_filter helloReflectionEnv _ _ rfl (List.mem_singleton.mpr rfl)

/-- C3 counterexample: an offline discovery round whose descriptor set
registers the internal health service publishes a catalog method whose
fully-qualified name begins with the reserved prefix grpc.health. -/
theorem c3_counterexample :
    (discoverServices healthOfflineEnv []).result = Except.ok () ∧
    ((discoverServices healthOfflineEnv []).tools.any
      (fun kv => ("grpc.health.".data).isPrefixOf kv.2.fullName)) = true :=
  ⟨rfl, rfl⟩

theorem invokeMethodCall_spec {env : InvokeEnv} {method : MethodInfo}
    {inputMsg : DynMsg} {pa : Bool} {o : InvokeOutcome}
    (hinv : invokeMethodCall env method inputMsg pa = some o) :
    o.parseAttempted = pa ∧
    (o.rpcSent = none ∨ o.rpcSent = some inputMsg) ∧
    (∀ p, o.rpcPath = some p →
      ∃ i, lastDotIndex method.fullName = some i ∧
        p = '/' :: method.fullName.take i ++ '/' :: method.name) := by
  unfold invokeMethodCall at hinv
  split at hinv
  · cases hinv
  · next i hi =>
    split at hinv
    · next e herr =>
      injection hinv with h'
      rw [← h']
      refine ⟨rfl, Or.inr rfl, ?_⟩
      intro p hp
      simp at hp
      exact ⟨i, hi, hp.symm⟩
    · next outMsg hok =>
      split at hinv
      · next e herr2 =>
        injection hinv with h'
        rw [← h']
        refine ⟨rfl, Or.inr rfl, ?_⟩
        intro p hp
        simp at hp
        exact ⟨i, hi, hp.symm⟩
      · next outJSON hok2 =>
        injection hinv with h'
        rw [← h']
        refine ⟨rfl, Or.inr rfl, ?_⟩
        intro p hp
        simp at hp
        exact ⟨i, hi, hp.symm⟩

theorem invokeMethod_rpcPath_inv {env : InvokeEnv} {method : MethodInfo}
    {inputJSON : Chars} {o : InvokeOutcome} {p : Chars}
    (hinv : invokeMethod env method inputJSON = some o) (hp : o.rpcPath = some p) :
    ∃ i, lastDotIndex method.fullName = some i ∧
      p = '/' :: method.fullName.take i ++ '/' :: method.name := by
  unfold invokeMethod at hinv
  split at hinv
  · split at hinv
    · next e herr =>
      injection hinv with h'
      rw [← h'] at hp
      simp at hp
    · exact (invokeMethodCall_spec hinv).2.2 p hp
  · exact (invokeMethodCall_spec hinv).2.2 p hp

/-- C6: a tool-call against a streaming method returns the dedicated
streaming-unsupported error and issues no backend RPC; the check runs
before any call is dispatched. -/
theorem c6_streaming_rejected :
    ∀ (env : InvokeEnv) (tools : List (Chars × MethodInfo)) (toolName inputJSON : Chars)
      (method : MethodInfo),
      toolMapLookup tools toolName = some method →
      (method.isClientStreaming || method.isServerStreaming) = true →
      invokeMethodByTool env tools toolName inputJSON =
        some ⟨Except.error .streamingUnsupported, none, none, false⟩ := by
  intro env tools toolName inputJSON method hlk hstream
  simp [invokeMethodByTool, hlk, hstream]

theorem c6_streaming_rejected_witness :
    invokeMethodByTool okInvokeEnv [("hello_helloservice_watch".data, streamingMethod)]
      ("hello_helloservice_watch".data) [] =
      some ⟨Except.error .streamingUnsupported, none, none, false⟩ :=
  c6_streaming_rejected okInvokeEnv _ _ [] streamingMethod rfl rfl

/-- C7: whenever a unary invocation issues its backend call, the
on-wire method path equals the slash, the full name truncated at its
last dot, another slash, and the simple method name. -/
theorem c7_method_path :
    ∀ (env : InvokeEnv) (method : MethodInfo) (inputJSON : Chars)
      (o : InvokeOutcome) (p : Chars),
      invokeMethod env method inputJSON = some o →
      o.rpcPath = some p →
      ∃ pre suf, method.fullName = pre ++ '.' :: suf ∧
        suf.contains '.' = false ∧
        p = '/' :: pre ++ '/' :: method.name := by
  intro env method inputJSON o p hinv hp
  obtain ⟨i, hi, hpth⟩ := invokeMethod_rpcPath_inv hinv hp
  obtain ⟨hsplit, hnodot⟩ := lastDotIndex_spec method.fullName i hi
  exact ⟨method.fullName.take i, method.fullName.drop (i + 1),
    hsplit, hnodot, by rw [hpth]⟩

theorem c7_method_path_witness :
    ∃ pre suf, sayHelloMethod.fullName = pre ++ '.' :: suf ∧
      suf.contains '.' = false ∧
      ("/hello.HelloService/SayHello".data) = '/' :: pre ++ '/' :: sayHelloMethod.name :=
  c7_method_path okInvokeEnv sayHelloMethod []
    ⟨Except.ok ("response".data),
     some ("/hello.HelloService/SayHello".data),
     some (DynMsg.empty ("hello.HelloRequest".data)), false⟩
    ("/hello.HelloService/SayHello".data) rfl rfl

/-- C8: the input JSON is handed to the parser only when it is neither
empty nor the empty-object literal — otherwise the dynamic input
message stays empty — and a parse failure returns the dedicated
parse-failure (InvalidArgument) error without issuing the backend
call. -/
theorem c8_input_parsing :
    (∀ (env : InvokeEnv) (method : MethodInfo) (inputJSON : Chars) (o : InvokeOutcome),
      (inputJSON = [] ∨ inputJSON = emptyObjectLiteral) →
      invokeMethod env method inputJSON = some o →
      o.parseAttempted = false ∧
      (o.rpcSent = none ∨ o.rpcSent = some (DynMsg.empty method.inputDescriptor)))
    ∧ (∀ (env : InvokeEnv) (method : MethodInfo) (inputJSON : Chars) (e : Chars),
      inputJSON ≠ [] → inputJSON ≠ emptyObjectLiteral →
      env.parse method.inputDescriptor inputJSON = Except.error e →
      invokeMethod env method inputJSON =
        some ⟨Except.error (.parseFailure e), none, none, true⟩) := by
  constructor
  · intro env method inputJSON o hj hinv
    unfold invokeMethod at hinv
    rw [if_neg (by
      intro hcon
      rcases hj with h | h
      · exact hcon.1 h
      · exact hcon.2 h)] at hinv
    have hspec := invokeMethodCall_spec hinv
    exact ⟨hspec.1, hspec.2.1⟩
  · intro env method inputJSON e hne1 hne2 hparse
    unfold invokeMethod
    rw [if_pos ⟨hne1, hne2⟩, hparse]

theorem c8_input_parsing_witness :
    ((⟨Except.ok ("response".data),
        some ("/hello.HelloService/SayHello".data),
        some (DynMsg.empty ("hello.HelloRequest".data)), false⟩ :
          InvokeOutcome).parseAttempted = false
      ∧ ((⟨Except.ok ("response".data),
        some ("/hello.HelloService/SayHello".data),
        some (DynMsg.empty ("hello.HelloRequest".data)), false⟩ :
          InvokeOutcome).rpcSent = none ∨
        (⟨Except.ok ("response".data),
        some ("/hello.HelloService/SayHello".data),
        some (DynMsg.empty ("hello.HelloRequest".data)), false⟩ :
          InvokeOutcome).rpcSent = some (DynMsg.empty sayHelloMethod.inputDescriptor)))
    ∧ invokeMethod badParseInvokeEnv sayHelloMethod ("notjson".data) =
        some ⟨Except.error (.parseFailure ("unknown field".data)), none, none, true⟩ :=
  ⟨c8_input_parsing.1 okInvokeEnv sayHelloMethod [] _ (Or.inl rfl) rfl,
   c8_input_parsing.2 badParseInvokeEnv sayHelloMethod ("notjson".data)
     ("unknown field".data) (by decide) (by decide) rfl⟩

/-- C9: the health probe succeeds exactly when the channel is Ready or,
from a non-terminal non-ready state, one observed state change within
the 5-second grace window leaves it Ready; it fails whenever the
channel is absent or in TransientFailure or Shutdown. -/
theorem c9_health_probe :
    ∀ env : ConnHealthEnv,
      ((healthCheckLocked env = Except.ok ()) ↔
        (env.conn = some .ready ∨
          (∃ st, env.conn = some st ∧ st ≠ .ready ∧ st ≠ .transientFailure ∧
            st ≠ .shutdown ∧ env.waitChanged = true ∧ env.stateAfterWait = .ready)))
      ∧ (env.conn = none → healthCheckLocked env = Except.error .noConnection)
      ∧ (∀ st, env.conn = some st → st = .transientFailure ∨ st = .shutdown →
          healthCheckLocked env ≠ Except.ok ()) := by
  intro env
  obtain ⟨conn, wc, sa⟩ := env
  cases conn with
  | none =>
    refine ⟨by simp [healthCheckLocked], fun _ => rfl, fun st hst => by cases hst⟩
  | some st =>
    cases st <;> cases wc <;> cases sa <;> simp [healthCheckLocked]

theorem c9_health_probe_witness :
    healthCheckLocked ⟨some .idle, true, .ready⟩ = Except.ok () ∧
    healthCheckLocked ⟨none, false, .idle⟩ = Except.error .noConnection ∧
    healthCheckLocked ⟨some .transientFailure, true, .ready⟩ ≠ Except.ok () :=
  ⟨(c9_health_probe ⟨some .idle, true, .ready⟩).1.mpr
      (Or.inr ⟨.idle, rfl, by decide, by decide, by decide, rfl, rfl⟩),
   (c9_health_probe ⟨none, false, .idle⟩).2.1 rfl,
   (c9_health_probe ⟨some .transientFailure, true, .ready⟩).2.2
     .transientFailure rfl (Or.inl rfl)⟩

theorem filterMap_str_map (l : List Chars) :
    List.filterMap
      ((fun x => match x with | JSON.str s => some s | _ => none) ∘ JSON.str) l
      = l := by
  induction l with
  | nil => rfl
  | cons a l ih => simpa [List.filterMap_cons] using ih

/-- C4 (amended): a field appears in the parent's required array iff
its schema extraction succeeds and it does not have optional-presence
semantics (optional keyword or presence tracking); a field whose
extraction fails (unsupported kind) is omitted from the required array
even without optional-presence semantics. -/
theorem c4_required_fields :
    ∀ (reg : MsgRegistry) (msg : MsgDesc) (visited : List Chars),
      visited.contains msg.fullName = false →
      lookupMsg reg msg.fullName = some msg →
      requiredNames (extractMessageSchemaInternal reg msg.fullName visited) =
        ((msg.fields.filter (fun f =>
          schemaResultOk (extractFieldSchemaInternal reg f (msg.fullName :: visited))
          && !(f.hasOptionalKeyword || f.hasPresence))).map (fun f => f.name)) := by
  intro reg msg visited hv hr
  rw [extractMessageSchemaInternal_expand reg msg.fullName visited msg hv hr]
  rw [← extractFieldsLoop_snd reg msg.fields (msg.fullName :: visited)]
  by_cases hc : msg.comment = []
  · by_cases hq : (extractFieldsLoop reg msg.fields (msg.fullName :: visited)).2 = []
    · simp +decide [requiredNames, schemaLookup, hc, hq]
    · simp +decide [requiredNames, schemaLookup, hc, hq, filterMap_str_map]
  · by_cases hq : (extractFieldsLoop reg msg.fields (msg.fullName :: visited)).2 = []
    · simp +decide [requiredNames, schemaLookup, hc, hq]
    · simp +decide [requiredNames, schemaLookup, hc, hq, filterMap_str_map]

theorem c4_required_fields_witness :
    requiredNames (extractMessageSchemaInternal groupFieldReg ("M".data) []) =
      ((groupFieldMsg.fields.filter (fun f =>
        schemaResultOk (extractFieldSchemaInternal groupFieldReg f (("M".data) :: []))
        && !(f.hasOptionalKeyword || f.hasPresence))).map (fun f => f.name)) :=
  c4_required_fields groupFieldReg groupFieldMsg [] (by decide) rfl

/-- C4 counterexample: the repeated group field g has neither the
optional keyword nor presence tracking and is not a oneof member, yet
it does not appear in the required array (its extraction fails on the
unsupported kind and the field is skipped), contradicting the claimed
iff. -/
theorem c4_counterexample :
    groupedField.hasOptionalKeyword = false ∧
    groupedField.hasPresence = false ∧
    groupedField ∈ groupFieldMsg.fields ∧
    groupFieldMsg.oneofs = [] ∧
    requiredNames (extractMessageSchema groupFieldReg ("M".data)) = [("a".data)] ∧
    ("g".data) ∉ requiredNames (extractMessageSchema groupFieldReg ("M".data)) := by
  have h1 := extractMessageSchemaInternal_expand groupFieldReg ("M".data) []
    groupFieldMsg (by decide) (by rfl)
  have hreq : requiredNames (extractMessageSchema groupFieldReg ("M".data)) =
      [("a".data)] := by
    simp +decide [extractMessageSchema, h1, extractFieldsLoop,
      extractFieldSchemaInternal, extractFieldTypeSchemaInternal, extractOneofsLoop,
      groupFieldMsg, groupedField, requiredNames, schemaLookup]
  refine ⟨rfl, rfl, ?_, rfl, hreq, ?_⟩
  · simp [groupFieldMsg]
  · rw [hreq]
    decide

/-- C5: projection is a total function even on cyclic type graphs (the
projector is defined by well-founded recursion on the count of
registry messages not yet on the visited stack); a message already on
the visited stack projects to its $ref token without recursion; and
the self-referential Node message projects to a finite schema whose
next property is the $ref cycle token. -/
theorem c5_cycle_termination :
    (∀ (reg : MsgRegistry) (msgName : Chars) (visited : List Chars),
      visited.contains msgName = true →
      extractMessageSchemaInternal reg msgName visited = refSchema msgName)
    ∧ extractMessageSchema nodeReg ("Node".data) =
        JSON.obj
          [("type".data, JSON.str ("object".data)),
           ("properties".data, JSON.obj
             [("v".data, JSON.obj [("type".data, JSON.str ("string".data))]),
              ("next".data, refSchema ("Node".data))]),
           ("required".data, JSON.arr [JSON.str ("v".data)])] := by
  constructor
  · exact extractMessageSchemaInternal_visited
  · have h1 := extractMessageSchemaInternal_expand nodeReg ("Node".data) [] nodeMsg
      (by decide) (by rfl)
    have h2 := extractMessageSchemaInternal_visited nodeReg ("Node".data)
      [("Node".data)] (by decide)
    simp +decide [extractMessageSchema, h1, h2, extractFieldsLoop, extractOneofsLoop,
      extractFieldSchemaInternal, extractFieldTypeSchemaInternal, nodeMsg, refSchema]

theorem c5_cycle_termination_witness :
    extractMessageSchemaInternal nodeReg ("Node".data) [("Node".data)] =
      refSchema ("Node".data) :=
  c5_cycle_termination.1 nodeReg ("Node".data) [("Node".data)] (by decide)
